import Mathlib

/-!
Verification development for the `edhrec-deck-building-scripts` repository
(`edhrec_backend.py`).

The Python source is shallowly embedded: every function under scrutiny is
translated into an executable Lean definition.  JSON dictionary fields that the
code inspects are modelled explicitly (distinguishing an absent key, a JSON
`null`, and a string value, because the code distinguishes them through
`dict.get`, `d[k]` and `isinstance` checks).  Mutable analyzer state (the
in-memory scryfall cache, the on-disk cache files, the build-id memo, the
rate-limit timestamps) is threaded as explicit state records; network I/O is
modelled by passing the upstream responses as an environment, together with a
counter of HTTP requests actually issued.  Python `float` times and delays are
modelled as exact rationals over an idealized monotone clock in which
`time.sleep` suspends for exactly the requested duration.
-/

namespace EdhrecBackend

/-! ### JSON field values

A value read out of one of the JSON dictionaries handled by the backend:
either the key is absent, or it maps to `null` (Python `None`), or it maps to
a string.  These three cases are exactly the ones the Python code tells apart.
-/

inductive JField where
  | absent
  | jnull
  | jstr (s : String)
deriving DecidableEq, Repr

/-- Python `d.get(key)`: an absent key yields `None`. -/
def JField.getOrNull : JField → JField
  | .absent => .jnull
  | v => v

/-- Python `d.get(key, default)` with a string default. -/
def JField.getOrDefault (v : JField) (d : String) : JField :=
  match v with
  | .absent => .jstr d
  | v => v

/-- Python truthiness of such a value: `None` and the empty string are falsy. -/
def JField.truthy : JField → Bool
  | .jstr s => s ≠ ""
  | _ => false

/-! ### Card metadata records and the scryfall cache

`scryfall_cache.json` maps a card name either to a bare type-line string (the
legacy format) or to a dict with keys `type_line`, `image_url`,
`scryfall_uri` (the current format).
-/

/-- The current-shape metadata dict `{type_line, image_url, scryfall_uri}`.
Each field is a `JField` so that a dict missing one of the keys is
representable (the code reads them with `d[k]` or `d.get`). -/
structure MetaRecord where
  type_line : JField
  image_url : JField
  scryfall_uri : JField
deriving DecidableEq, Repr

/-- A stored scryfall-cache entry: legacy bare string or current-shape dict. -/
inductive CacheEntry where
  | legacy (s : String)
  | current (r : MetaRecord)
deriving DecidableEq, Repr

/-- The scryfall cache as a finite-map abstraction of the JSON dict. -/
def SCache : Type := String → Option CacheEntry

/-- Overwriting insertion, as performed by `self.scryfall_cache[card_name] = meta`. -/
def cacheSet (c : SCache) (k : String) (v : CacheEntry) : SCache :=
  fun k' => if k' = k then some v else c k'

/-- The mutable metadata-cache state of the analyzer:
the in-memory dict, the persisted on-disk copy (`scryfall_cache.json`), and an
instrumentation counter of HTTP requests issued to the metadata service. -/
structure MetaState where
  scryfall_cache : SCache
  persisted : SCache
  fetches : ℕ

/-- `save_scryfall_cache`: rewrite the on-disk JSON document in full. -/
def save_scryfall_cache (st : MetaState) : MetaState :=
  { st with persisted := st.scryfall_cache }

/-- The `image_uris` sub-dict of a scryfall card body: only its `normal` key
is ever read. -/
structure ImageUris where
  normal : JField
deriving DecidableEq, Repr

/-- The parsed JSON body of a scryfall `cards/named` response, restricted to
the keys the backend reads.  `image_uris = some u` means the key is present
and is a dict; `card_faces = some f` means the key is present, is a list and
is non-empty, `f` being the first face's `image_uris` dict when that face has
one. -/
structure ScryCard where
  type_line : JField
  image_uris : Option ImageUris
  card_faces : Option (Option ImageUris)
  scryfall_uri : JField
deriving DecidableEq, Repr

/-- An HTTP response from the metadata service: status code plus parsed body
(the body is only meaningful when the status is 200). -/
structure ScryResponse where
  status : ℕ
  card : ScryCard
deriving DecidableEq, Repr

/-- The upstream metadata service, as a map from card name to response. -/
def ScryUpstream : Type := String → ScryResponse

/-- `EDHRecAnalyzer._fetch_scryfall_metadata`, as a pure function of the HTTP
response it obtains (the rate-limit call and the request itself are accounted
for by the callers below). -/
def fetch_scryfall_metadata (r : ScryResponse) : MetaRecord :=
  if r.status ≠ 200 then
    { type_line := .jstr "Unknown", image_url := .jnull, scryfall_uri := .jnull }
  else
    { type_line := r.card.type_line.getOrDefault "Unknown"
      image_url :=
        match r.card.image_uris with
        | some u => u.normal.getOrNull
        | none => .jnull
      scryfall_uri := r.card.scryfall_uri.getOrNull }

/-- `EDHRecAnalyzer.get_card_type`.  Returns `Except` to model the uncaught
`KeyError` raised by `cached["type_line"]` on a dict missing that key. -/
def get_card_type (upstream : ScryUpstream) (card_name : String) (st : MetaState) :
    Except String JField × MetaState :=
  match st.scryfall_cache card_name with
  | some (.current r) =>
      match r.type_line with
      | .absent => (.error "KeyError: type_line", st)
      | v => (.ok v, st)
  | some (.legacy _) =>
      let meta := fetch_scryfall_metadata (upstream card_name)
      let st1 := { st with fetches := st.fetches + 1 }
      let st2 := { st1 with scryfall_cache := cacheSet st1.scryfall_cache card_name (.current meta) }
      let st3 := save_scryfall_cache st2
      (match meta.type_line with
       | .absent => (.error "KeyError: type_line", st3)
       | v => (.ok v, st3))
  | none =>
      let meta := fetch_scryfall_metadata (upstream card_name)
      let st1 := { st with fetches := st.fetches + 1 }
      let st2 := { st1 with scryfall_cache := cacheSet st1.scryfall_cache card_name (.current meta) }
      let st3 := save_scryfall_cache st2
      (match meta.type_line with
       | .absent => (.error "KeyError: type_line", st3)
       | v => (.ok v, st3))

/-- The dict built by the 200 branch of `get_card_metadata` (which inlines its
own scryfall request rather than calling `_fetch_scryfall_metadata`, adding the
`card_faces` fallback for double-faced cards). -/
def get_card_metadata_fetch (r : ScryResponse) : MetaRecord :=
  if r.status ≠ 200 then
    { type_line := .jstr "Unknown", image_url := .jnull, scryfall_uri := .jnull }
  else
    let card := r.card
    let type_line := card.type_line.getOrDefault "Unknown"
    let image_url0 : JField :=
      match card.image_uris with
      | some u => u.normal.getOrNull
      | none => .jnull
    let image_url : JField :=
      if !image_url0.truthy then
        match card.card_faces with
        | some (some u) => u.normal.getOrNull
        | some none => image_url0
        | none => image_url0
      else image_url0
    { type_line := type_line, image_url := image_url,
      scryfall_uri := card.scryfall_uri.getOrNull }

/-- `EDHRecAnalyzer.get_card_metadata`. -/
def get_card_metadata (upstream : ScryUpstream) (card_name : String) (st : MetaState) :
    MetaRecord × MetaState :=
  match st.scryfall_cache card_name with
  | some (.current r) =>
      ({ type_line := r.type_line.getOrDefault "Unknown"
         image_url := r.image_url.getOrNull
         scryfall_uri := r.scryfall_uri.getOrNull }, st)
  | some (.legacy s) =>
      ({ type_line := .jstr s, image_url := .jnull, scryfall_uri := .jnull }, st)
  | none =>
      let meta := get_card_metadata_fetch (upstream card_name)
      let st1 := { st with fetches := st.fetches + 1 }
      let st2 := { st1 with scryfall_cache := cacheSet st1.scryfall_cache card_name (.current meta) }
      let st3 := save_scryfall_cache st2
      (meta, st3)

/-! ### Date parsing

`filter_deck_hashes` parses each `savedate` with
`datetime.strptime(s, "%Y-%m-%d")`.  CPython's `%Y` directive matches exactly
four digits, `%m` matches `1[0-2]|0[1-9]|[1-9]`, `%d` matches
`3[01]|[12]\d|0[1-9]|[1-9]`, the whole string must be consumed, and the
resulting `datetime(y, m, d)` additionally requires `1 ≤ y` and a valid day
of month (Gregorian leap rule).  Parsed dates compare lexicographically by
`(year, month, day)`, so a valid date is encoded as the natural number
`y * 10000 + m * 100 + d`, which preserves that order. -/

/-- Numeric value of a digit character. -/
def dval (c : Char) : ℕ := c.toNat - 48

/-- The two-digit alternatives of strptime's `%m` directive. -/
def month2 (a b : Char) : Option ℕ :=
  if a = '1' ∧ (b = '0' ∨ b = '1' ∨ b = '2') then some (10 + dval b)
  else if a = '0' ∧ b.isDigit ∧ b ≠ '0' then some (dval b)
  else none

/-- The two-digit alternatives of strptime's `%d` directive. -/
def day2 (a b : Char) : Option ℕ :=
  if a = '3' ∧ (b = '0' ∨ b = '1') then some (30 + dval b)
  else if (a = '1' ∨ a = '2') ∧ b.isDigit then some (10 * dval a + dval b)
  else if a = '0' ∧ b.isDigit ∧ b ≠ '0' then some (dval b)
  else none

/-- The one-digit alternative `[1-9]` shared by `%m` and `%d`. -/
def digit1 (a : Char) : Option ℕ :=
  if a.isDigit ∧ a ≠ '0' then some (dval a) else none

/-- Consume a `%m` token.  When the two-digit alternatives match, the
character after them is a digit, so regex backtracking into the one-digit
alternative (which would then have to match that digit against `-` or the end
of the string) can never succeed; taking the two-digit match first is
therefore faithful. -/
def parseMonthTok : List Char → Option (ℕ × List Char)
  | a :: b :: rest =>
      match month2 a b with
      | some m => some (m, rest)
      | none => (digit1 a).map (fun m => (m, b :: rest))
  | [a] => (digit1 a).map (fun m => (m, ([] : List Char)))
  | [] => none

/-- Consume a `%d` token (same backtracking argument as for `%m`). -/
def parseDayTok : List Char → Option (ℕ × List Char)
  | a :: b :: rest =>
      match day2 a b with
      | some d => some (d, rest)
      | none => (digit1 a).map (fun d => (d, b :: rest))
  | [a] => (digit1 a).map (fun d => (d, ([] : List Char)))
  | [] => none

/-- Days in a month under the proleptic Gregorian calendar used by
`datetime`. -/
def daysInMonth (y m : ℕ) : ℕ :=
  if m = 2 then (if y % 4 = 0 ∧ (y % 100 ≠ 0 ∨ y % 400 = 0) then 29 else 28)
  else if m = 4 ∨ m = 6 ∨ m = 9 ∨ m = 11 then 30
  else 31

/-- `datetime.strptime(s, "%Y-%m-%d")`, returning the encoded date
`y * 10000 + m * 100 + d`, or `none` where Python raises `ValueError`. -/
def strptimeYMD (s : String) : Option ℕ :=
  match s.toList with
  | y1 :: y2 :: y3 :: y4 :: '-' :: rest =>
      if y1.isDigit ∧ y2.isDigit ∧ y3.isDigit ∧ y4.isDigit then
        let y := 1000 * dval y1 + 100 * dval y2 + 10 * dval y3 + dval y4
        match parseMonthTok rest with
        | some (m, '-' :: rest2) =>
            match parseDayTok rest2 with
            | some (d, []) =>
                if 1 ≤ y ∧ d ≤ daysInMonth y m then some (10000 * y + 100 * m + d)
                else none
            | _ => none
        | _ => none
      else none
  | _ => none

/-! ### Deck index filtering -/

/-- One entry of the `deck_table["table"]` array, restricted to the keys the
backend reads.  `savedate_dt` models the extra key that
`filter_deck_hashes` writes into each entry dict (absent in upstream data). -/
structure DeckEntry where
  urlhash : String
  savedate : String
  price : ℚ
  savedate_dt : Option ℕ := none
deriving DecidableEq, Repr

/-- The sort key `lambda e: e["savedate_dt"]` (defined on entries whose
`savedate_dt` has been filled in). -/
def dateKey (e : DeckEntry) : ℕ := e.savedate_dt.getD 0

/-- The descending comparison realised by
`sorted(entries, key=..., reverse=True)`. -/
def descLE (a b : DeckEntry) : Prop := dateKey b ≤ dateKey a

instance : DecidableRel descLE := fun a b => inferInstanceAs (Decidable (dateKey b ≤ dateKey a))

/-- The in-place date-parsing loop
`for e in entries: e["savedate_dt"] = datetime.strptime(...)`;
`none` models the `ValueError` escaping the loop. -/
def parse_entries : List DeckEntry → Option (List DeckEntry)
  | [] => some []
  | e :: es =>
      match strptimeYMD e.savedate with
      | none => none
      | some d => (parse_entries es).map (fun r => { e with savedate_dt := some d } :: r)

/-- The price window test `min_price <= e["price"] <= max_price`. -/
def priceOk (lo hi : ℚ) (e : DeckEntry) : Bool :=
  decide (lo ≤ e.price) && decide (e.price ≤ hi)

/-- `EDHRecAnalyzer.filter_deck_hashes`.  Python's `sorted` is a stable sort;
it is embedded as the (stable) insertion sort with the descending-by-date
comparison.  Because the loop mutates the entry dicts in place, the function
returns both the selected hashes and the post-call contents of
`deck_table["table"]`; `none` models the `ValueError` raised on an
unparsable `savedate`. -/
def filter_deck_hashes (table : List DeckEntry) (recent : ℕ) (min_price max_price : ℚ) :
    Option (List String × List DeckEntry) :=
  match parse_entries table with
  | none => none
  | some entries =>
      let sorted_entries := entries.insertionSort descLE
      let filtered := sorted_entries.filter (priceOk min_price max_price)
      let limited := filtered.take recent
      some (limited.map (fun e => e.urlhash), entries)

/-! ### The reference deck-index filter, from the specification's words

"for every entry, parse its date field (ISO `YYYY-MM-DD`); sort all entries by
parsed date descending (most recent first); from that ordering, retain only
entries whose price lies in `[minPrice, maxPrice]` inclusive; take at most the
first `limit` of the remaining entries, preserving the sort order; return
their identifying hashes as an ordered sequence. [...] Ties in date are broken
by original catalog order (stable sort)."

The reference makes the tie-breaking explicit: entries are decorated with
their parsed date and their original catalog position, and sorted by the
linear order "later date first, equal dates by smaller original position
first". -/

/-- Decorate every entry with its parsed date (spec step "parse its date
field"); fails when any date is unparsable. -/
def spec_dated : List DeckEntry → Option (List (ℕ × DeckEntry))
  | [] => some []
  | e :: es =>
      match strptimeYMD e.savedate with
      | none => none
      | some d => (spec_dated es).map (fun r => (d, e) :: r)

/-- The spec's ordering on position-decorated dated entries: strictly more
recent first, ties by original catalog position. -/
def specLex (p q : ℕ × (ℕ × DeckEntry)) : Prop :=
  p.2.1 > q.2.1 ∨ (p.2.1 = q.2.1 ∧ p.1 ≤ q.1)

instance : DecidableRel specLex := fun p q =>
  inferInstanceAs (Decidable (p.2.1 > q.2.1 ∨ (p.2.1 = q.2.1 ∧ p.1 ≤ q.1)))

/-- The reference filter, following the specification sentence by sentence. -/
def spec_filter (table : List DeckEntry) (limit : ℕ) (min_price max_price : ℚ) :
    Option (List String) :=
  match spec_dated table with
  | none => none
  | some dated =>
      let sortedPairs := (dated.enum).insertionSort specLex
      let sorted := sortedPairs.map (fun p => p.2.2)
      let kept := sorted.filter (fun e => decide (min_price ≤ e.price) && decide (e.price ≤ max_price))
      some ((kept.take limit).map (fun e => e.urlhash))

/-! ### Python string primitives used by `fetch_edhrec_build_id` -/

/-- Does `pat` occur in `hay` starting at position `i`? -/
def subAt (hay pat : List Char) (i : ℕ) : Bool := pat.isPrefixOf (hay.drop i)

/-- Smallest occurrence position of `pat` in `hay` that is `≥ start`. -/
def firstOcc (hay pat : List Char) (start : ℕ) : Option ℕ :=
  (List.range (hay.length + 1)).find? (fun i => decide (start ≤ i) && subAt hay pat i)

/-- Largest occurrence position of `pat` in `hay`. -/
def lastOcc (hay pat : List Char) : Option ℕ :=
  ((List.range (hay.length + 1)).filter (fun i => subAt hay pat i)).getLast?

/-- Python `hay.find(pat, start)`: occurrence position or `-1`. -/
def pyFind (hay pat : List Char) (start : ℕ) : ℤ :=
  match firstOcc hay pat start with
  | some i => (i : ℤ)
  | none => -1

/-- Python `hay.rfind(pat)`: last occurrence position or `-1`. -/
def pyRFind (hay pat : List Char) : ℤ :=
  match lastOcc hay pat with
  | some i => (i : ℤ)
  | none => -1

/-- Python slice `l[a:b]` for `0 ≤ a`, where `b` may be negative (counting
from the end, as in `prefix[start:-1]` when `find` returned `-1`). -/
def pySlice (l : List Char) (a : ℤ) (b : ℤ) : List Char :=
  let stop : ℕ := if b < 0 then (l.length : ℤ) + b |>.toNat else b.toNat
  (l.take stop).drop a.toNat

/-! ### Build-id extraction (`fetch_edhrec_build_id`) -/

/-- The filename marker `"_buildManifest.js"`. -/
def manifestMarker : List Char := "_buildManifest.js".toList

/-- The path-prefix marker `"/_next/static/"`. -/
def staticMarker : List Char := "/_next/static/".toList

/-- The parsing part of `EDHRecAnalyzer.fetch_edhrec_build_id`: extract the
build id from the homepage HTML, with the code's three failure modes. -/
def extract_build_id (html : String) : Except String String :=
  let h := html.toList
  let idx := pyFind h manifestMarker 0
  if idx = -1 then .error "Could not find _buildManifest.js reference in homepage."
  else
    let pre := pySlice h 0 idx
    let static_idx := pyRFind pre staticMarker
    if static_idx = -1 then .error "Could not locate /_next/static/ in homepage."
    else
      let start := static_idx + (staticMarker.length : ℤ)
      let stop := pyFind pre ['/'] start.toNat
      let build_id := pySlice pre start stop
      if build_id = [] ∨ build_id.length < 5 then
        .error "Extracted invalid EDHREC build ID"
      else .ok (String.mk build_id)

/-- The token extraction described by the specification: "locate the last
occurrence of a known path-prefix marker that appears strictly before the
first occurrence of a known filename marker, then take the substring between
the end of the prefix marker and the next path separator", failing when a
marker is missing or the extracted substring is shorter than 5 characters. -/
def spec_build_token (html : String) : Option String :=
  let h := html.toList
  match firstOcc h manifestMarker 0 with
  | none => none
  | some idx =>
      let pre := h.take idx
      match lastOcc pre staticMarker with
      | none => none
      | some static_idx =>
          let start := static_idx + staticMarker.length
          match firstOcc pre ['/'] start with
          | none => none
          | some stop =>
              let tok := (pre.take stop).drop start
              if tok.length < 5 then none else some (String.mk tok)

/-! ### Deck cache and deck fetching -/

/-- A deck record: the list of "quantity cardName" lines of the deck body
(the shape consumed by `count_cards`). -/
def Deck : Type := List String

instance : DecidableEq Deck := inferInstanceAs (DecidableEq (List String))

/-- State of one per-deck file of the deck cache directory. -/
inductive FileState where
  | absent
  | corrupt
  | good (d : Deck)
deriving DecidableEq

/-- The deck cache directory, one file per deck id. -/
def DeckFS : Type := String → FileState

/-- `EDHRecAnalyzer.load_deck_from_cache`: `None` when the file is missing or
unparsable (`json.load` raised). -/
def load_deck_from_cache (fs : DeckFS) (deck_id : String) : Option Deck :=
  match fs deck_id with
  | .good d => some d
  | _ => none

/-- `EDHRecAnalyzer.save_deck_to_cache`. -/
def save_deck_to_cache (fs : DeckFS) (deck_id : String) (d : Deck) : DeckFS :=
  fun k => if k = deck_id then .good d else fs k

/-- Python truthiness of the `cached` value in `fetch_deck_by_hash`
(`if cached:`): `None` and the empty deck are falsy. -/
def deckTruthy : Option Deck → Bool
  | none => false
  | some d => !(List.isEmpty d)

/-- Python truthiness of `self.build_id` (`if self.build_id:` /
`if not self.build_id:`). -/
def buildIdTruthy : Option String → Bool
  | none => false
  | some b => b ≠ ""

/-- An HTTP response carrying an HTML page. -/
structure HtmlResponse where
  status : ℕ
  body : String

/-- An HTTP response for a deck-detail request: `body = some deck` when the
JSON has the nested `pageProps.data.deck` path, `none` when that path is
missing (the code's `KeyError` branch). -/
structure DeckResponse where
  status : ℕ
  body : Option Deck

/-- The upstream EDHREC service: the homepage and the per-deck endpoints. -/
structure DeckEnv where
  homepage : HtmlResponse
  deckResponse : String → DeckResponse

/-- The analyzer state touched by deck fetching: the build-id memo, the deck
cache directory, and instrumentation counters for rate-limiter acquisitions
and HTTP requests on the EDHREC service. -/
structure DeckState where
  build_id : Option String
  deck_fs : DeckFS
  edhrec_acquires : ℕ
  requests : ℕ

/-- `EDHRecAnalyzer.fetch_edhrec_build_id`: return the memoized id when
truthy; otherwise acquire the rate limiter, fetch the homepage, extract the
id and memoize it.  The `Except` value models the exceptions the code
raises. -/
def fetch_edhrec_build_id (env : DeckEnv) (st : DeckState) :
    Except String String × DeckState :=
  if buildIdTruthy st.build_id then
    ((match st.build_id with
      | some b => .ok b
      | none => .error "unreachable"), st)
  else
    let st1 := { st with edhrec_acquires := st.edhrec_acquires + 1 }
    let st2 := { st1 with requests := st1.requests + 1 }
    if env.homepage.status ≠ 200 then
      (.error "Failed to load EDHREC homepage to detect build ID", st2)
    else
      match extract_build_id env.homepage.body with
      | .error e => (.error e, st2)
      | .ok b => (.ok b, { st2 with build_id := some b })

/-- `EDHRecAnalyzer.fetch_deck_by_hash`.  The `Except` layer models an
exception escaping (only `fetch_edhrec_build_id` can raise here); `ok none`
is the code's `return None` on a non-200 status or unexpected JSON shape. -/
def fetch_deck_by_hash (env : DeckEnv) (st : DeckState) (deck_id : String) :
    Except String (Option Deck) × DeckState :=
  let cached := load_deck_from_cache st.deck_fs deck_id
  if deckTruthy cached then (.ok cached, st)
  else
    let ensured :=
      if !buildIdTruthy st.build_id then fetch_edhrec_build_id env st
      else (.ok "", st)
    match ensured with
    | (.error e, st') => (.error e, st')
    | (.ok _, st') =>
        let st1 := { st' with edhrec_acquires := st'.edhrec_acquires + 1 }
        let st2 := { st1 with requests := st1.requests + 1 }
        let r := env.deckResponse deck_id
        if r.status ≠ 200 then (.ok none, st2)
        else
          match r.body with
          | none => (.ok none, st2)
          | some deck =>
              (.ok (some deck),
               { st2 with deck_fs := save_deck_to_cache st2.deck_fs deck_id deck })

/-! ### The concurrent deck downloader (`fetch_decks_with_progress`)

The generator submits one future per element of `deck_hashes` to a bounded
thread pool and then yields one `(completed, total, deck)` triple per future,
in `as_completed` order.  An execution of the batch is modelled by the list of
futures in completion order, each paired with its outcome: the value
`fetch_deck_by_hash` returned, or `None` when `future.result()` raised (the
generator catches the exception and yields `None`). -/

/-- `EDHRecAnalyzer.fetch_decks_with_progress`, as a function of the batch's
completion-ordered outcomes. -/
def fetch_decks_with_progress (deck_hashes : List String)
    (completion : List (String × Option Deck)) : List (ℕ × ℕ × Option Deck) :=
  if deck_hashes.isEmpty then []
  else completion.enum.map (fun p => (p.1 + 1, deck_hashes.length, p.2.2))

/-! ### Rate limiting

`rate_limit_scryfall` / `rate_limit_edhrec` over an idealized monotone clock:
the caller invokes the method at clock value `now`; `time.sleep(dt)` returns
at `now + dt`; `time.time()` reads the clock.  The float delays `0.12` and
`0.80` are modelled as exact rationals.  Each call returns the clock value at
which it returns (the grant time) together with the updated timestamp
state. -/

/-- The analyzer's rate-limit timestamps (`time.time()` values, 0 initially). -/
structure RateState where
  last_scryfall_request : ℚ
  last_edhrec_request : ℚ

/-- `SCRYFALL_MIN_DELAY = 0.12`. -/
def SCRYFALL_MIN_DELAY : ℚ := 0.12

/-- `EDHREC_MIN_DELAY = 0.80`. -/
def EDHREC_MIN_DELAY : ℚ := 0.80

/-- `EDHRecAnalyzer.rate_limit_scryfall`, called at clock value `now`. -/
def rate_limit_scryfall (now : ℚ) (st : RateState) : ℚ × RateState :=
  let elapsed := now - st.last_scryfall_request
  let grant := if elapsed < SCRYFALL_MIN_DELAY then now + (SCRYFALL_MIN_DELAY - elapsed) else now
  (grant, { st with last_scryfall_request := grant })

/-- `EDHRecAnalyzer.rate_limit_edhrec`, called at clock value `now`. -/
def rate_limit_edhrec (now : ℚ) (st : RateState) : ℚ × RateState :=
  let elapsed := now - st.last_edhrec_request
  let grant := if elapsed < EDHREC_MIN_DELAY then now + (EDHREC_MIN_DELAY - elapsed) else now
  (grant, { st with last_edhrec_request := grant })

/-- The grant times of a sequence of `rate_limit_scryfall` calls issued at the
given clock values. -/
def scryfall_run (st : RateState) : List ℚ → List ℚ
  | [] => []
  | t :: ts =>
      let (g, st') := rate_limit_scryfall t st
      g :: scryfall_run st' ts

/-- The grant times of a sequence of `rate_limit_edhrec` calls issued at the
given clock values. -/
def edhrec_run (st : RateState) : List ℚ → List ℚ
  | [] => []
  | t :: ts =>
      let (g, st') := rate_limit_edhrec t st
      g :: edhrec_run st' ts

/-! ### Helper lemmas about the metadata cache -/

theorem cacheSet_same (c : SCache) (k : String) (v : CacheEntry) : cacheSet c k v k = some v := by
  simp [cacheSet]

theorem JField.getOrDefault_ne_absent (v : JField) (d : String) : v.getOrDefault d ≠ .absent := by
  cases v <;> simp [JField.getOrDefault]

theorem JField.getOrNull_ne_absent (v : JField) : v.getOrNull ≠ .absent := by
  cases v <;> simp [JField.getOrNull]

theorem JField.getOrDefault_of_ne_absent {v : JField} (h : v ≠ .absent) (d : String) :
    v.getOrDefault d = v := by
  cases v <;> simp_all [JField.getOrDefault]

theorem JField.getOrNull_of_ne_absent {v : JField} (h : v ≠ .absent) : v.getOrNull = v := by
  cases v <;> simp_all [JField.getOrNull]

theorem fetch_scryfall_metadata_ne_absent (r : ScryResponse) :
    (fetch_scryfall_metadata r).type_line ≠ .absent ∧
    (fetch_scryfall_metadata r).image_url ≠ .absent ∧
    (fetch_scryfall_metadata r).scryfall_uri ≠ .absent := by
  unfold fetch_scryfall_metadata
  split
  · simp
  · refine ⟨JField.getOrDefault_ne_absent _ _, ?_, JField.getOrNull_ne_absent _⟩
    cases r.card.image_uris with
    | none => simp
    | some u => exact JField.getOrNull_ne_absent _

theorem get_card_metadata_fetch_ne_absent (r : ScryResponse) :
    (get_card_metadata_fetch r).type_line ≠ .absent ∧
    (get_card_metadata_fetch r).image_url ≠ .absent ∧
    (get_card_metadata_fetch r).scryfall_uri ≠ .absent := by
  unfold get_card_metadata_fetch
  split
  · simp
  · refine ⟨JField.getOrDefault_ne_absent _ _, ?_, JField.getOrNull_ne_absent _⟩
    dsimp only
    split
    · rename_i h
      rcases hf : r.card.card_faces with _ | ⟨_ | u⟩ <;> simp only [hf]
      · cases r.card.image_uris with
        | none => simp
        | some u => exact JField.getOrNull_ne_absent _
      · cases r.card.image_uris with
        | none => simp
        | some u => exact JField.getOrNull_ne_absent _
      · exact JField.getOrNull_ne_absent _
    · cases r.card.image_uris with
      | none => simp
      | some u => exact JField.getOrNull_ne_absent _

/-- Reading a current-shape cache entry through `get_card_metadata` touches
nothing and rebuilds the returned dict from the stored fields. -/
theorem get_card_metadata_current_eq (u : ScryUpstream) (k : String) (st : MetaState)
    (r : MetaRecord) (h : st.scryfall_cache k = some (.current r)) :
    get_card_metadata u k st =
      ({ type_line := r.type_line.getOrDefault "Unknown"
         image_url := r.image_url.getOrNull
         scryfall_uri := r.scryfall_uri.getOrNull }, st) := by
  simp [get_card_metadata, h]

/-- Reading a current-shape entry whose `type_line` key is present through
`get_card_type` returns that field and touches nothing. -/
theorem get_card_type_current_of_ne (u : ScryUpstream) (k : String) (st : MetaState)
    (r : MetaRecord) (h : st.scryfall_cache k = some (.current r))
    (hne : r.type_line ≠ .absent) :
    get_card_type u k st = (.ok r.type_line, st) := by
  simp only [get_card_type, h]

/-- The state produced by the fetch-and-store path of `get_card_metadata`. -/
theorem get_card_metadata_absent_eq (u : ScryUpstream) (k : String) (st : MetaState)
    (h : st.scryfall_cache k = none) :
    get_card_metadata u k st =
      (get_card_metadata_fetch (u k),
       { scryfall_cache := cacheSet st.scryfall_cache k (.current (get_card_metadata_fetch (u k)))
         persisted := cacheSet st.scryfall_cache k (.current (get_card_metadata_fetch (u k)))
         fetches := st.fetches + 1 }) := by
  simp [get_card_metadata, h, save_scryfall_cache]

/-- The state produced by the fetch-and-store path of `get_card_type` on a
key that is not cached at all. -/
theorem get_card_type_absent_eq (u : ScryUpstream) (k : String) (st : MetaState)
    (h : st.scryfall_cache k = none) :
    get_card_type u k st =
      (.ok (fetch_scryfall_metadata (u k)).type_line,
       { scryfall_cache := cacheSet st.scryfall_cache k (.current (fetch_scryfall_metadata (u k)))
         persisted := cacheSet st.scryfall_cache k (.current (fetch_scryfall_metadata (u k)))
         fetches := st.fetches + 1 }) := by
  simp only [get_card_type, h]
  cases htl : (fetch_scryfall_metadata (u k)).type_line with
  | absent => exact absurd htl (fetch_scryfall_metadata_ne_absent (u k)).1
  | jnull => simp [save_scryfall_cache, htl]
  | jstr s => simp [save_scryfall_cache, htl]

/-- The state produced by the upgrade path of `get_card_type` on a legacy
entry. -/
theorem get_card_type_legacy_eq (u : ScryUpstream) (k : String) (st : MetaState)
    (s : String) (h : st.scryfall_cache k = some (.legacy s)) :
    get_card_type u k st =
      (.ok (fetch_scryfall_metadata (u k)).type_line,
       { scryfall_cache := cacheSet st.scryfall_cache k (.current (fetch_scryfall_metadata (u k)))
         persisted := cacheSet st.scryfall_cache k (.current (fetch_scryfall_metadata (u k)))
         fetches := st.fetches + 1 }) := by
  simp only [get_card_type, h]
  cases htl : (fetch_scryfall_metadata (u k)).type_line with
  | absent => exact absurd htl (fetch_scryfall_metadata_ne_absent (u k)).1
  | jnull => simp [save_scryfall_cache, htl]
  | jstr s => simp [save_scryfall_cache, htl]

/-! ### Claim C10 -/

/-- C10.  On a current-shape cache entry, `get_card_type` returns exactly the
stored `type_line` field and is total only when that key is present: with the
key missing it raises an uncaught `KeyError`, whereas `get_card_metadata` on
the very same entry substitutes `"Unknown"`. -/
theorem get_card_type_requires_type_line :
    ∀ (u : ScryUpstream) (k : String) (st : MetaState) (r : MetaRecord),
      st.scryfall_cache k = some (.current r) →
      (r.type_line ≠ .absent → get_card_type u k st = (.ok r.type_line, st)) ∧
      (r.type_line = .absent →
        get_card_type u k st = (.error "KeyError: type_line", st) ∧
        (get_card_metadata u k st).1.type_line = .jstr "Unknown" ∧
        (get_card_metadata u k st).2 = st) := by
  intro u k st r h
  refine ⟨fun hne => get_card_type_current_of_ne u k st r h hne, fun habs => ?_⟩
  refine ⟨?_, ?_, ?_⟩
  · simp [get_card_type, h, habs]
  · rw [get_card_metadata_current_eq u k st r h]
    simp [habs, JField.getOrDefault]
  · rw [get_card_metadata_current_eq u k st r h]

/-- The current-shape record missing its `type_line` key. -/
def absentRec : MetaRecord :=
  { type_line := .absent, image_url := .jnull, scryfall_uri := .jnull }

/-- A well-formed scryfall card body used to instantiate upstream services. -/
def card0 : ScryCard :=
  { type_line := .jstr "Artifact", image_uris := some { normal := .jstr "img-normal" },
    card_faces := none, scryfall_uri := .jstr "scryfall-link" }

/-- An upstream metadata service that always answers 200 with `card0`. -/
def upstream0 : ScryUpstream := fun _ => { status := 200, card := card0 }

/-- An upstream metadata service that always answers 404. -/
def upstream404 : ScryUpstream := fun _ => { status := 404, card := card0 }

/-- A metadata state whose cache holds a current-shape entry missing
`type_line` for every key. -/
def absentTypeState : MetaState :=
  { scryfall_cache := fun _ => some (.current absentRec)
    persisted := fun _ => some (.current absentRec)
    fetches := 0 }

/-- Witness for C10 at the card name `"Sol Ring"`. -/
theorem get_card_type_requires_type_line_witness :
    absentTypeState.scryfall_cache "Sol Ring" = some (.current absentRec) ∧
    (get_card_type upstream0 "Sol Ring" absentTypeState = (.error "KeyError: type_line", absentTypeState) ∧
     (get_card_metadata upstream0 "Sol Ring" absentTypeState).1.type_line = .jstr "Unknown" ∧
     (get_card_metadata upstream0 "Sol Ring" absentTypeState).2 = absentTypeState) :=
  ⟨rfl, (get_card_type_requires_type_line upstream0 "Sol Ring" absentTypeState absentRec rfl).2 rfl⟩

/-! ### Claim C3 -/

/-- C3.  On a key absent from the metadata cache, each of the two getOrFetch
operations fetches exactly once: the first call issues one request, stores the
current-shape record and persists it, and a repeated call returns the same
value with the state — in particular the request counter — unchanged. -/
theorem get_or_fetch_absent_single_fetch :
    ∀ (u : ScryUpstream) (k : String) (st : MetaState),
      st.scryfall_cache k = none →
      ((get_card_metadata u k st).2.fetches = st.fetches + 1 ∧
       (get_card_metadata u k st).2.scryfall_cache k = some (.current (get_card_metadata u k st).1) ∧
       (get_card_metadata u k st).2.persisted k = some (.current (get_card_metadata u k st).1) ∧
       get_card_metadata u k (get_card_metadata u k st).2 = get_card_metadata u k st) ∧
      ((get_card_type u k st).2.fetches = st.fetches + 1 ∧
       (∃ m : MetaRecord,
          (get_card_type u k st).2.scryfall_cache k = some (.current m) ∧
          (get_card_type u k st).2.persisted k = some (.current m) ∧
          (get_card_type u k st).1 = .ok m.type_line) ∧
       get_card_type u k (get_card_type u k st).2 = get_card_type u k st) := by
  intro u k st h
  obtain ⟨ht, hi, hs⟩ := get_card_metadata_fetch_ne_absent (u k)
  obtain ⟨ht', hi', hs'⟩ := fetch_scryfall_metadata_ne_absent (u k)
  rw [get_card_metadata_absent_eq u k st h, get_card_type_absent_eq u k st h]
  refine ⟨⟨rfl, cacheSet_same _ _ _, cacheSet_same _ _ _, ?_⟩,
          rfl, ⟨fetch_scryfall_metadata (u k), cacheSet_same _ _ _, cacheSet_same _ _ _, rfl⟩, ?_⟩
  · rw [get_card_metadata_current_eq u k _ (get_card_metadata_fetch (u k)) (cacheSet_same _ _ _)]
    rw [JField.getOrDefault_of_ne_absent ht, JField.getOrNull_of_ne_absent hi,
        JField.getOrNull_of_ne_absent hs]
  · rw [get_card_type_current_of_ne u k _ (fetch_scryfall_metadata (u k)) (cacheSet_same _ _ _) ht']

/-- A metadata state with an entirely empty cache. -/
def emptyMetaState : MetaState :=
  { scryfall_cache := fun _ => none, persisted := fun _ => none, fetches := 0 }

/-- Witness for C3 at the card name `"Sol Ring"` over an empty cache. -/
theorem get_or_fetch_absent_single_fetch_witness :
    emptyMetaState.scryfall_cache "Sol Ring" = none ∧
    ((get_card_metadata upstream0 "Sol Ring" emptyMetaState).2.fetches = emptyMetaState.fetches + 1 ∧
     get_card_metadata upstream0 "Sol Ring"
       (get_card_metadata upstream0 "Sol Ring" emptyMetaState).2 =
       get_card_metadata upstream0 "Sol Ring" emptyMetaState) ∧
    (get_card_type upstream0 "Sol Ring" emptyMetaState).2.fetches = emptyMetaState.fetches + 1 :=
  ⟨rfl,
   ⟨((get_or_fetch_absent_single_fetch upstream0 "Sol Ring" emptyMetaState rfl).1).1,
    ((get_or_fetch_absent_single_fetch upstream0 "Sol Ring" emptyMetaState rfl).1).2.2.2⟩,
   ((get_or_fetch_absent_single_fetch upstream0 "Sol Ring" emptyMetaState rfl).2).1⟩

/-! ### Claim C2 -/

/-- A metadata state whose cache holds the legacy bare-string entry
`"Artifact"` for every key (the pre-seeded legacy cache of the spec's
example). -/
def legacyMetaState : MetaState :=
  { scryfall_cache := fun _ => some (.legacy "Artifact")
    persisted := fun _ => some (.legacy "Artifact")
    fetches := 0 }

/-- Counterexample to C2: `get_card_metadata` on a legacy entry does NOT
upgrade it.  It issues no fetch (the request counter and the whole state are
unchanged, the cache entry is still the legacy string) and returns a record
synthesized from the bare string. -/
theorem get_card_metadata_legacy_no_upgrade :
    (get_card_metadata upstream0 "Sol Ring" legacyMetaState).2 = legacyMetaState ∧
    (get_card_metadata upstream0 "Sol Ring" legacyMetaState).2.fetches = 0 ∧
    (get_card_metadata upstream0 "Sol Ring" legacyMetaState).2.scryfall_cache "Sol Ring" =
      some (.legacy "Artifact") ∧
    (get_card_metadata upstream0 "Sol Ring" legacyMetaState).1 =
      { type_line := .jstr "Artifact", image_url := .jnull, scryfall_uri := .jnull } :=
  ⟨rfl, rfl, rfl, rfl⟩

/-- C2 (amended).  A legacy entry is transparently upgraded by
`get_card_type` only: it re-fetches the metadata, replaces the cache entry
with the current shape, persists the change before returning, and subsequent
reads by either operation issue no further fetch.  `get_card_metadata`, by
contrast, returns a record synthesized from the legacy string (type line =
the string, no image, no URI) without fetching, upgrading or persisting
anything. -/
theorem legacy_upgrade_on_get_card_type_only :
    ∀ (u : ScryUpstream) (k : String) (st : MetaState) (s : String),
      st.scryfall_cache k = some (.legacy s) →
      ((get_card_type u k st).2.fetches = st.fetches + 1 ∧
       (get_card_type u k st).2.scryfall_cache k =
         some (.current (fetch_scryfall_metadata (u k))) ∧
       (get_card_type u k st).2.persisted k =
         some (.current (fetch_scryfall_metadata (u k))) ∧
       (get_card_type u k st).1 = .ok (fetch_scryfall_metadata (u k)).type_line ∧
       get_card_type u k (get_card_type u k st).2 = get_card_type u k st ∧
       (get_card_metadata u k (get_card_type u k st).2).2 = (get_card_type u k st).2) ∧
      get_card_metadata u k st =
        ({ type_line := .jstr s, image_url := .jnull, scryfall_uri := .jnull }, st) := by
  intro u k st s h
  obtain ⟨ht', _, _⟩ := fetch_scryfall_metadata_ne_absent (u k)
  rw [get_card_type_legacy_eq u k st s h]
  refine ⟨⟨rfl, cacheSet_same _ _ _, cacheSet_same _ _ _, rfl, ?_, ?_⟩, ?_⟩
  · rw [get_card_type_current_of_ne u k _ (fetch_scryfall_metadata (u k)) (cacheSet_same _ _ _) ht']
  · rw [get_card_metadata_current_eq u k _ (fetch_scryfall_metadata (u k)) (cacheSet_same _ _ _)]
  · simp [get_card_metadata, h]

/-- Witness for the amended C2 on the pre-seeded legacy cache. -/
theorem legacy_upgrade_on_get_card_type_only_witness :
    legacyMetaState.scryfall_cache "Sol Ring" = some (.legacy "Artifact") ∧
    ((get_card_type upstream0 "Sol Ring" legacyMetaState).2.fetches = legacyMetaState.fetches + 1 ∧
     get_card_type upstream0 "Sol Ring" (get_card_type upstream0 "Sol Ring" legacyMetaState).2 =
       get_card_type upstream0 "Sol Ring" legacyMetaState) ∧
    get_card_metadata upstream0 "Sol Ring" legacyMetaState =
      ({ type_line := .jstr "Artifact", image_url := .jnull, scryfall_uri := .jnull },
       legacyMetaState) :=
  ⟨rfl,
   ⟨((legacy_upgrade_on_get_card_type_only upstream0 "Sol Ring" legacyMetaState "Artifact" rfl).1).1,
    ((legacy_upgrade_on_get_card_type_only upstream0 "Sol Ring" legacyMetaState "Artifact" rfl).1).2.2.2.2.1⟩,
   (legacy_upgrade_on_get_card_type_only upstream0 "Sol Ring" legacyMetaState "Artifact" rfl).2⟩

/-! ### Claim C8 -/

/-- The placeholder record produced for a non-200 metadata response. -/
def placeholderMeta : MetaRecord :=
  { type_line := .jstr "Unknown", image_url := .jnull, scryfall_uri := .jnull }

/-- C8.  A non-success status on the metadata request yields — it does not
raise — the `"Unknown"` placeholder record with null image and URI fields;
through either cache-miss path the placeholder is stored and persisted like
any successful value, and subsequent lookups by either operation touch the
upstream service no further. -/
theorem non200_metadata_placeholder_cached :
    ∀ (u : ScryUpstream) (k : String) (st : MetaState),
      (u k).status ≠ 200 →
      st.scryfall_cache k = none →
      fetch_scryfall_metadata (u k) = placeholderMeta ∧
      get_card_metadata_fetch (u k) = placeholderMeta ∧
      ((get_card_metadata u k st).1 = placeholderMeta ∧
       (get_card_metadata u k st).2.scryfall_cache k = some (.current placeholderMeta) ∧
       (get_card_metadata u k st).2.persisted k = some (.current placeholderMeta) ∧
       (get_card_metadata u k st).2.fetches = st.fetches + 1) ∧
      ((get_card_type u k st).1 = .ok (.jstr "Unknown") ∧
       (get_card_type u k st).2.scryfall_cache k = some (.current placeholderMeta) ∧
       (get_card_type u k st).2.persisted k = some (.current placeholderMeta) ∧
       (get_card_type u k st).2.fetches = st.fetches + 1) ∧
      get_card_metadata u k (get_card_metadata u k st).2 = get_card_metadata u k st ∧
      (get_card_metadata u k (get_card_metadata u k st).2).2.fetches = st.fetches + 1 ∧
      get_card_type u k (get_card_metadata u k st).2 =
        ((get_card_type u k st).1, (get_card_metadata u k st).2) := by
  intro u k st h200 hnone
  have hfetch : fetch_scryfall_metadata (u k) = placeholderMeta := by
    unfold fetch_scryfall_metadata
    rw [if_pos h200]
    rfl
  have hfetch' : get_card_metadata_fetch (u k) = placeholderMeta := by
    unfold get_card_metadata_fetch
    rw [if_pos h200]
    rfl
  rw [get_card_metadata_absent_eq u k st hnone, get_card_type_absent_eq u k st hnone, hfetch, hfetch']
  have hview := get_card_metadata_current_eq u k
    { scryfall_cache := cacheSet st.scryfall_cache k (.current placeholderMeta)
      persisted := cacheSet st.scryfall_cache k (.current placeholderMeta)
      fetches := st.fetches + 1 } placeholderMeta (cacheSet_same _ _ _)
  have hview' := get_card_type_current_of_ne u k
    { scryfall_cache := cacheSet st.scryfall_cache k (.current placeholderMeta)
      persisted := cacheSet st.scryfall_cache k (.current placeholderMeta)
      fetches := st.fetches + 1 } placeholderMeta (cacheSet_same _ _ _)
    (by simp [placeholderMeta])
  refine ⟨rfl, rfl, ⟨rfl, cacheSet_same _ _ _, cacheSet_same _ _ _, rfl⟩,
          ⟨rfl, cacheSet_same _ _ _, cacheSet_same _ _ _, rfl⟩, ?_, ?_, ?_⟩
  · rw [hview]
    rfl
  · rw [hview]
  · rw [hview']

/-- Witness for C8: the always-404 upstream over an empty cache. -/
theorem non200_metadata_placeholder_cached_witness :
    (upstream404 "Sol Ring").status ≠ 200 ∧
    emptyMetaState.scryfall_cache "Sol Ring" = none ∧
    ((get_card_metadata upstream404 "Sol Ring" emptyMetaState).1 = placeholderMeta ∧
     (get_card_metadata upstream404 "Sol Ring" emptyMetaState).2.fetches = emptyMetaState.fetches + 1) ∧
    get_card_metadata upstream404 "Sol Ring"
      (get_card_metadata upstream404 "Sol Ring" emptyMetaState).2 =
      get_card_metadata upstream404 "Sol Ring" emptyMetaState :=
  ⟨by decide, rfl,
   ⟨((non200_metadata_placeholder_cached upstream404 "Sol Ring" emptyMetaState (by decide) rfl).2.2.1).1,
    ((non200_metadata_placeholder_cached upstream404 "Sol Ring" emptyMetaState (by decide) rfl).2.2.1).2.2.2⟩,
   (non200_metadata_placeholder_cached upstream404 "Sol Ring" emptyMetaState (by decide) rfl).2.2.2.2.1⟩

/-! ### Claim C5 -/

/-- A deck environment answering 200 with a one-line deck for every deck id. -/
def deckEnv0 : DeckEnv :=
  { homepage := { status := 200, body := "" }
    deckResponse := fun _ => { status := 200, body := some ["1 Sol Ring"] } }

/-- A deck state whose cache directory holds a readable file containing the
empty deck `[]` for every deck id, with the build id already memoized. -/
def emptyDeckCachedState : DeckState :=
  { build_id := some "abcde", deck_fs := fun _ => .good ([] : Deck)
    edhrec_acquires := 0, requests := 0 }

/-- Counterexample to C5: a deck record that is present and readable in the
cache but empty (`[]` is falsy under Python's `if cached:`) is re-fetched —
the call acquires the EDHREC rate limiter and issues an HTTP request. -/
theorem fetch_deck_empty_cached_refetched :
    load_deck_from_cache emptyDeckCachedState.deck_fs "h1" = some ([] : Deck) ∧
    (fetch_deck_by_hash deckEnv0 emptyDeckCachedState "h1").2.edhrec_acquires =
      emptyDeckCachedState.edhrec_acquires + 1 ∧
    (fetch_deck_by_hash deckEnv0 emptyDeckCachedState "h1").2.requests =
      emptyDeckCachedState.requests + 1 :=
  ⟨rfl, rfl, rfl⟩

/-- C5 (amended).  A deck record that is present, readable and non-empty
(Python-truthy) is returned immediately from the cache: the state — rate
limiter acquisitions, HTTP requests, build-id memo and cache directory — is
completely untouched.  An empty cached record, although present and readable,
is treated like a miss and re-fetched. -/
theorem fetch_deck_cache_hit_no_network :
    ∀ (env : DeckEnv) (st : DeckState) (deck_id : String) (d : Deck),
      st.deck_fs deck_id = .good d → d ≠ [] →
      fetch_deck_by_hash env st deck_id = (.ok (some d), st) := by
  intro env st deck_id d h hne
  unfold fetch_deck_by_hash
  simp [load_deck_from_cache, h, deckTruthy, List.isEmpty_iff, hne]

/-- A deck state whose cache holds a readable non-empty deck for every id. -/
def goodDeckCachedState : DeckState :=
  { build_id := none, deck_fs := fun _ => .good (["1 Sol Ring"] : Deck)
    edhrec_acquires := 0, requests := 0 }

/-- Witness for the amended C5. -/
theorem fetch_deck_cache_hit_no_network_witness :
    goodDeckCachedState.deck_fs "h1" = .good (["1 Sol Ring"] : Deck) ∧
    (["1 Sol Ring"] : Deck) ≠ [] ∧
    fetch_deck_by_hash deckEnv0 goodDeckCachedState "h1" =
      (.ok (some (["1 Sol Ring"] : Deck)), goodDeckCachedState) :=
  ⟨rfl, by decide,
   fetch_deck_cache_hit_no_network deckEnv0 goodDeckCachedState "h1" ["1 Sol Ring"] rfl (by decide)⟩

/-! ### Claim C6 -/

/-- Every grant is at least the minimum delay after the recorded
last-acquisition time. -/
theorem scryfall_grant_lower (now : ℚ) (st : RateState) :
    st.last_scryfall_request + SCRYFALL_MIN_DELAY ≤ (rate_limit_scryfall now st).1 := by
  unfold rate_limit_scryfall
  dsimp only
  rcases lt_or_le (now - st.last_scryfall_request) SCRYFALL_MIN_DELAY with h | h
  · rw [if_pos h]
    linarith
  · rw [if_neg (not_lt.mpr h)]
    linarith

theorem edhrec_grant_lower (now : ℚ) (st : RateState) :
    st.last_edhrec_request + EDHREC_MIN_DELAY ≤ (rate_limit_edhrec now st).1 := by
  unfold rate_limit_edhrec
  dsimp only
  rcases lt_or_le (now - st.last_edhrec_request) EDHREC_MIN_DELAY with h | h
  · rw [if_pos h]
    linarith
  · rw [if_neg (not_lt.mpr h)]
    linarith

theorem scryfall_run_chain (ts : List ℚ) :
    ∀ st : RateState,
      List.Chain' (fun g g' => g + SCRYFALL_MIN_DELAY ≤ g') (scryfall_run st ts) := by
  induction ts with
  | nil => intro st; simp [scryfall_run]
  | cons t ts ih =>
    intro st
    cases ts with
    | nil => simp [scryfall_run]
    | cons t2 ts2 =>
      have h1 : scryfall_run st (t :: t2 :: ts2) =
          (rate_limit_scryfall t st).1 ::
          (rate_limit_scryfall t2 (rate_limit_scryfall t st).2).1 ::
          scryfall_run (rate_limit_scryfall t2 (rate_limit_scryfall t st).2).2 ts2 := rfl
      rw [h1]
      refine List.chain'_cons.mpr ⟨scryfall_grant_lower t2 (rate_limit_scryfall t st).2, ?_⟩
      exact ih (rate_limit_scryfall t st).2

theorem edhrec_run_chain (ts : List ℚ) :
    ∀ st : RateState,
      List.Chain' (fun g g' => g + EDHREC_MIN_DELAY ≤ g') (edhrec_run st ts) := by
  induction ts with
  | nil => intro st; simp [edhrec_run]
  | cons t ts ih =>
    intro st
    cases ts with
    | nil => simp [edhrec_run]
    | cons t2 ts2 =>
      have h1 : edhrec_run st (t :: t2 :: ts2) =
          (rate_limit_edhrec t st).1 ::
          (rate_limit_edhrec t2 (rate_limit_edhrec t st).2).1 ::
          edhrec_run (rate_limit_edhrec t2 (rate_limit_edhrec t st).2).2 ts2 := rfl
      rw [h1]
      refine List.chain'_cons.mpr ⟨edhrec_grant_lower t2 (rate_limit_edhrec t st).2, ?_⟩
      exact ih (rate_limit_edhrec t st).2

/-- C6.  Over the idealized clock, any sequence of consecutive acquisitions
on the same service has consecutive grant times separated by at least the
service's minimum delay (`0.12 s` for scryfall, `0.80 s` for EDHREC), and
each call records its grant time as the service's new last-acquisition
timestamp before returning. -/
theorem rate_limit_min_spacing :
    (∀ (st : RateState) (ts : List ℚ),
        List.Chain' (fun g g' => g + SCRYFALL_MIN_DELAY ≤ g') (scryfall_run st ts)) ∧
    (∀ (st : RateState) (ts : List ℚ),
        List.Chain' (fun g g' => g + EDHREC_MIN_DELAY ≤ g') (edhrec_run st ts)) ∧
    SCRYFALL_MIN_DELAY = 12 / 100 ∧ EDHREC_MIN_DELAY = 80 / 100 ∧
    (∀ (now : ℚ) (st : RateState),
        (rate_limit_scryfall now st).2.last_scryfall_request = (rate_limit_scryfall now st).1) ∧
    (∀ (now : ℚ) (st : RateState),
        (rate_limit_edhrec now st).2.last_edhrec_request = (rate_limit_edhrec now st).1) := by
  refine ⟨fun st ts => scryfall_run_chain ts st, fun st ts => edhrec_run_chain ts st,
          ?_, ?_, fun _ _ => rfl, fun _ _ => rfl⟩
  · norm_num [SCRYFALL_MIN_DELAY]
  · norm_num [EDHREC_MIN_DELAY]

/-! ### Claim C4 -/

/-- The completion positions of a batch, shifted by one: the `completed`
counters. -/
theorem enumFrom_map_fst_succ (l : List (String × Option Deck)) :
    ∀ s : ℕ, (List.enumFrom s l).map (fun p => p.1 + 1) = List.range' (s + 1) l.length := by
  induction l with
  | nil => intro s; simp
  | cons a l ih =>
    intro s
    rw [List.enumFrom_cons, List.map_cons, List.length_cons, List.range'_succ, ih (s + 1)]

/-- C4 (amended).  Under any completion order of the batch (any permutation
of the submitted keys), the generator yields exactly one triple per submitted
future: the output has one triple per key, every triple carries
`total = N`, the completed counters are exactly `1, …, N`, and the result
components are exactly the per-future outcomes in completion order (a failed
future contributes `none` — a bare null, carrying neither the originating key
nor the error, which are only printed). -/
theorem fetch_decks_with_progress_one_triple_per_key :
    ∀ (deck_hashes : List String) (completion : List (String × Option Deck)),
      (completion.map Prod.fst).Perm deck_hashes →
      (fetch_decks_with_progress deck_hashes completion).length = deck_hashes.length ∧
      (∀ t ∈ fetch_decks_with_progress deck_hashes completion, t.2.1 = deck_hashes.length) ∧
      (fetch_decks_with_progress deck_hashes completion).map (fun t => t.1) =
        List.range' 1 deck_hashes.length ∧
      (fetch_decks_with_progress deck_hashes completion).map (fun t => t.2.2) =
        completion.map Prod.snd := by
  intro dh completion hperm
  have hlen : completion.length = dh.length := by
    have := hperm.length_eq
    simpa using this
  by_cases hd : dh.isEmpty
  · have hdh : dh = [] := by simpa [List.isEmpty_iff] using hd
    subst hdh
    have hc : completion = [] := by
      have := List.perm_nil.mp hperm
      simpa using this
    subst hc
    simp [fetch_decks_with_progress]
  · unfold fetch_decks_with_progress
    rw [if_neg hd]
    refine ⟨by simp [hlen], ?_, ?_, ?_⟩
    · intro t ht
      simp only [List.mem_map] at ht
      obtain ⟨p, _, rfl⟩ := ht
      rfl
    · rw [List.map_map]
      have hcomp : ((fun t : ℕ × ℕ × Option Deck => t.1) ∘
          (fun p : ℕ × String × Option Deck => (p.1 + 1, dh.length, p.2.2))) =
          fun p : ℕ × String × Option Deck => p.1 + 1 := rfl
      rw [hcomp]
      have := enumFrom_map_fst_succ completion 0
      simpa [List.enum, hlen] using this
    · rw [List.map_map]
      have hcomp : ((fun t : ℕ × ℕ × Option Deck => t.2.2) ∘
          (fun p : ℕ × String × Option Deck => (p.1 + 1, dh.length, p.2.2))) =
          (Prod.snd ∘ Prod.snd) := rfl
      rw [hcomp, ← List.map_map, List.enum_map_snd]

/-- A concrete one-line deck body. -/
def d0 : Deck := ["1 Sol Ring"]

/-- Witness for the amended C4: three keys, the second-completing future
failed, one triple per key with `total = 3` throughout. -/
theorem fetch_decks_with_progress_one_triple_per_key_witness :
    ((([("c", some d0), ("a", none), ("b", some d0)] :
        List (String × Option Deck)).map Prod.fst).Perm ["a", "b", "c"]) ∧
    (fetch_decks_with_progress ["a", "b", "c"]
        [("c", some d0), ("a", none), ("b", some d0)]).length = 3 ∧
    (fetch_decks_with_progress ["a", "b", "c"]
        [("c", some d0), ("a", none), ("b", some d0)]).map (fun t => t.1) =
      List.range' 1 3 :=
  ⟨by decide,
   (fetch_decks_with_progress_one_triple_per_key ["a", "b", "c"]
      [("c", some d0), ("a", none), ("b", some d0)] (by decide)).1,
   (fetch_decks_with_progress_one_triple_per_key ["a", "b", "c"]
      [("c", some d0), ("a", none), ("b", some d0)] (by decide)).2.2.1⟩

/-- Counterexample to C4 as stated: two legitimate executions of the same
batch over the keys `a, b, c` — in the first the future for `"b"` failed, in
the second the future for `"c"` failed — produce identical output sequences,
so the yielded result of a failed item cannot carry the originating key (or
the error); it is the bare `None`. -/
theorem fetch_decks_failed_marker_carries_nothing :
    fetch_decks_with_progress ["a", "b", "c"]
        [("a", some d0), ("b", none), ("c", some d0)] =
      fetch_decks_with_progress ["a", "b", "c"]
        [("a", some d0), ("c", none), ("b", some d0)] ∧
    (fetch_decks_with_progress ["a", "b", "c"]
        [("a", some d0), ("b", none), ("c", some d0)])[1]? =
      some (2, 3, (none : Option Deck)) :=
  ⟨rfl, rfl⟩

/-! ### Claim C7 -/

theorem pySlice_nat (l : List Char) (a b : ℕ) :
    pySlice l (a : ℤ) (b : ℤ) = (l.take b).drop a := by
  unfold pySlice
  rw [if_neg (not_lt.mpr (Int.natCast_nonneg b))]
  simp

theorem pySlice_zero_nat (l : List Char) (b : ℕ) :
    pySlice l 0 (b : ℤ) = l.take b := by
  unfold pySlice
  rw [if_neg (not_lt.mpr (Int.natCast_nonneg b))]
  simp

theorem pySlice_neg_one (l : List Char) (a : ℕ) :
    pySlice l (a : ℤ) (-1) = (l.take (l.length - 1)).drop a := by
  unfold pySlice
  rw [if_pos (by norm_num)]
  have h : ((l.length : ℤ) + (-1)).toNat = l.length - 1 := by omega
  simp [h]

/-- The spec's token extraction, amended with the behaviour the code actually
has when no `/` follows the prefix marker before the filename marker: the
Python slice `prefix[start:-1]` then takes everything up to, but excluding,
the final character of the pre-marker prefix. -/
def spec_build_token_amended (html : String) : Option String :=
  let h := html.toList
  match firstOcc h manifestMarker 0 with
  | none => none
  | some idx =>
      let pre := h.take idx
      match lastOcc pre staticMarker with
      | none => none
      | some static_idx =>
          let start := static_idx + staticMarker.length
          let tok :=
            match firstOcc pre ['/'] start with
            | some stop => (pre.take stop).drop start
            | none => (pre.take (pre.length - 1)).drop start
          if tok.length < 5 then none else some (String.mk tok)

theorem extract_build_id_toOption_eq (html : String) :
    (extract_build_id html).toOption = spec_build_token_amended html := by
  unfold extract_build_id spec_build_token_amended
  rcases h1 : firstOcc html.toList manifestMarker 0 with _ | idx <;>
    simp only [pyFind, h1]
  · rfl
  · rw [if_neg (by omega : ¬ (idx : ℤ) = -1)]
    rw [pySlice_zero_nat html.toList idx]
    rcases h2 : lastOcc (html.toList.take idx) staticMarker with _ | si <;>
      simp only [pyRFind, h2]
    · rfl
    · rw [if_neg (by omega : ¬ (si : ℤ) = -1)]
      have hcast : ((si : ℤ) + (staticMarker.length : ℤ)).toNat = si + staticMarker.length := by
        omega
      rcases h3 : firstOcc (html.toList.take idx) ['/'] (si + staticMarker.length) with _ | stop <;>
        rw [hcast] <;> simp only [pyFind, h3]
      · rw [show ((si : ℤ) + (staticMarker.length : ℤ)) = ((si + staticMarker.length : ℕ) : ℤ) by omega]
        rw [pySlice_neg_one]
        by_cases h4 : ((html.toList.take idx).take ((html.toList.take idx).length - 1)).drop
            (si + staticMarker.length) = [] ∨
            (((html.toList.take idx).take ((html.toList.take idx).length - 1)).drop
            (si + staticMarker.length)).length < 5
        · rw [if_pos h4, if_pos ?_]
          · rfl
          · rcases h4 with h4 | h4
            · rw [h4]; norm_num
            · exact h4
        · rw [if_neg h4, if_neg ?_]
          · rfl
          · push_neg at h4
            exact not_lt.mpr h4.2
      · rw [show ((si : ℤ) + (staticMarker.length : ℤ)) = ((si + staticMarker.length : ℕ) : ℤ) by omega]
        rw [pySlice_nat]
        by_cases h4 : ((html.toList.take idx).take stop).drop (si + staticMarker.length) = [] ∨
            (((html.toList.take idx).take stop).drop (si + staticMarker.length)).length < 5
        · rw [if_pos h4, if_pos ?_]
          · rfl
          · rcases h4 with h4 | h4
            · rw [h4]; norm_num
            · exact h4
        · rw [if_neg h4, if_neg ?_]
          · rfl
          · push_neg at h4
            exact not_lt.mpr h4.2

/-- A successfully extracted build id is a non-empty string (its length is at
least 5). -/
theorem extract_build_id_ok_ne_empty (html : String) (b : String)
    (h : extract_build_id html = .ok b) : b ≠ "" := by
  have h2 : spec_build_token_amended html = some b := by
    rw [← extract_build_id_toOption_eq, h]
    rfl
  unfold spec_build_token_amended at h2
  rcases h1 : firstOcc html.toList manifestMarker 0 with _ | idx <;> simp only [h1] at h2
  · exact absurd h2 (by simp)
  · rcases h3 : lastOcc (html.toList.take idx) staticMarker with _ | si <;> simp only [h3] at h2
    · exact absurd h2 (by simp)
    · split at h2
      · exact absurd h2 (by simp)
      · rename_i hlen
        have hb := Option.some.injEq _ _ |>.mp h2
        intro hcontra
        apply hlen
        have hdata : (match firstOcc (html.toList.take idx) ['/'] (si + staticMarker.length) with
            | some stop => ((html.toList.take idx).take stop).drop (si + staticMarker.length)
            | none => ((html.toList.take idx).take ((html.toList.take idx).length - 1)).drop
                (si + staticMarker.length)) = [] := by
          have := congrArg String.data (hb.trans hcontra)
          simpa using this
        rw [hdata]
        norm_num

/-- Once a call has resolved the build id, a repeated call returns the
memoized token and leaves the state (in particular the request counter)
unchanged. -/
theorem fetch_edhrec_build_id_memo (env : DeckEnv) (st : DeckState) (b : String)
    (st' : DeckState) (h : fetch_edhrec_build_id env st = (.ok b, st')) :
    fetch_edhrec_build_id env st' = (.ok b, st') := by
  unfold fetch_edhrec_build_id at h
  by_cases ht : buildIdTruthy st.build_id
  · rw [if_pos ht] at h
    rcases hb : st.build_id with _ | b0
    · rw [hb] at ht
      exact absurd ht (by simp [buildIdTruthy])
    · rw [hb] at h ht
      have h' : ((Except.ok b0 : Except String String), st) = (.ok b, st') := h
      have hb0 : b0 = b := by
        have := congrArg Prod.fst h'
        simpa using this
      have hst : st = st' := by simpa using congrArg Prod.snd h'
      subst hb0
      subst hst
      unfold fetch_edhrec_build_id
      rw [hb, if_pos ht]
  · rw [if_neg ht] at h
    by_cases hs : env.homepage.status ≠ 200
    · rw [if_pos hs] at h
      exact absurd (congrArg Prod.fst h) (by simp)
    · rw [if_neg hs] at h
      rcases he : extract_build_id env.homepage.body with e | b1 <;> rw [he] at h
      · exact absurd (congrArg Prod.fst h) (by simp)
      · have hb1 : b1 = b := by
          have := congrArg Prod.fst h
          simpa using this
        subst hb1
        have hst : st' = { st with
            edhrec_acquires := st.edhrec_acquires + 1,
            requests := st.requests + 1,
            build_id := some b1 } := by
          have := congrArg Prod.snd h
          exact this.symm
        have hne := extract_build_id_ok_ne_empty env.homepage.body b1 he
        unfold fetch_edhrec_build_id
        rw [hst]
        rw [if_pos (by simpa [buildIdTruthy] using hne)]

/-- C7 (amended).  The code's extraction agrees with the spec's description
whenever a path separator follows the prefix marker; when none follows, the
code still succeeds, returning everything between the marker and the last
character of the pre-marker prefix excluding that final character (a
consequence of `find` returning `-1` and Python's negative-index slicing);
failure happens exactly when the filename marker is absent, when the prefix
marker is absent before it, or when the extracted substring is shorter than
5 characters.  After a successful resolution, a repeated call returns the
memoized token with the state — in particular the request counter —
unchanged. -/
theorem fetch_edhrec_build_id_spec :
    (∀ html : String, (extract_build_id html).toOption = spec_build_token_amended html) ∧
    (∀ (env : DeckEnv) (st : DeckState) (b : String) (st' : DeckState),
       fetch_edhrec_build_id env st = (.ok b, st') →
       fetch_edhrec_build_id env st' = (.ok b, st')) :=
  ⟨fun html => extract_build_id_toOption_eq html,
   fun env st b st' h => fetch_edhrec_build_id_memo env st b st' h⟩

/-- A deck environment whose homepage carries a well-formed build-id
reference. -/
def deckEnvGood : DeckEnv :=
  { homepage := { status := 200, body := "<html src=/_next/static/ABC123XYZ/_buildManifest.js>" }
    deckResponse := fun _ => { status := 200, body := some ["1 Sol Ring"] } }

/-- An empty deck-cache directory. -/
def absentFS : DeckFS := fun _ => FileState.absent

/-- A deck state with nothing memoized and empty caches. -/
def freshDeckState : DeckState :=
  { build_id := none, deck_fs := absentFS, edhrec_acquires := 0, requests := 0 }

/-- The state after the first resolution against `deckEnvGood`. -/
def resolvedDeckState : DeckState :=
  { build_id := some "ABC123XYZ", deck_fs := absentFS, edhrec_acquires := 1, requests := 1 }

/-- Witness for C7: one resolution on the well-formed homepage, then a
memoized second call. -/
theorem fetch_edhrec_build_id_spec_witness :
    (extract_build_id "<html src=/_next/static/ABC123XYZ/_buildManifest.js>").toOption =
      spec_build_token_amended "<html src=/_next/static/ABC123XYZ/_buildManifest.js>" ∧
    fetch_edhrec_build_id deckEnvGood freshDeckState = (.ok "ABC123XYZ", resolvedDeckState) ∧
    fetch_edhrec_build_id deckEnvGood resolvedDeckState = (.ok "ABC123XYZ", resolvedDeckState) :=
  ⟨fetch_edhrec_build_id_spec.1 "<html src=/_next/static/ABC123XYZ/_buildManifest.js>",
   by rfl,
   fetch_edhrec_build_id_spec.2 deckEnvGood freshDeckState "ABC123XYZ" resolvedDeckState (by rfl)⟩

/-- The homepage body in which no path separator follows the prefix marker:
the code succeeds and silently drops the final character `g`, returning
`"abcdef"`, while the substring-to-the-next-separator of the specification
does not exist. -/
def nosepHtml : String := "/_next/static/abcdefg_buildManifest.js"

/-- Counterexample to C7 as stated: on `nosepHtml` the resolution succeeds
with token `"abcdef"`, yet the spec's extraction — which requires a path
separator after the prefix marker — yields no token at all (and the
characters between the marker and the filename marker are `"abcdefg"`, not
`"abcdef"`). -/
theorem extract_build_id_no_separator_diverges :
    extract_build_id nosepHtml = .ok "abcdef" ∧
    spec_build_token nosepHtml = none := by
  constructor <;> rfl

/-! ### Claim C9 -/

theorem parse_entries_forall2 :
    ∀ (table l' : List DeckEntry), parse_entries table = some l' →
      List.Forall₂ (fun e' e => e'.urlhash = e.urlhash ∧ e'.savedate = e.savedate ∧
        e'.price = e.price ∧ e'.savedate_dt = strptimeYMD e.savedate) l' table := by
  intro table
  induction table with
  | nil =>
    intro l' h
    simp only [parse_entries, Option.some.injEq] at h
    subst h
    exact List.Forall₂.nil
  | cons e es ih =>
    intro l' h
    simp only [parse_entries] at h
    rcases hd : strptimeYMD e.savedate with _ | d <;> rw [hd] at h
    · exact absurd h (by simp)
    · rcases hr : parse_entries es with _ | r <;> rw [hr] at h
      · exact absurd h (by simp)
      · have h2 : ({ e with savedate_dt := some d } :: r) = l' := by simpa using h
        subst h2
        exact List.Forall₂.cons ⟨rfl, rfl, rfl, hd.symm⟩ (ih r hr)

/-- C9 (amended).  `filter_deck_hashes` does mutate the catalog: on a
successful call every entry of `deck_table["table"]` gains the extra
`savedate_dt` key, set to its parsed date, while its `urlhash`, `savedate`
and `price` fields are preserved unchanged. -/
theorem filter_deck_hashes_mutation_bounded :
    ∀ (table : List DeckEntry) (recent : ℕ) (lo hi : ℚ)
      (hashes : List String) (entries2 : List DeckEntry),
      filter_deck_hashes table recent lo hi = some (hashes, entries2) →
      List.Forall₂ (fun e' e => e'.urlhash = e.urlhash ∧ e'.savedate = e.savedate ∧
        e'.price = e.price ∧ e'.savedate_dt = strptimeYMD e.savedate) entries2 table := by
  intro table recent lo hi hashes entries2 h
  unfold filter_deck_hashes at h
  rcases hp : parse_entries table with _ | entries <;> rw [hp] at h
  · exact absurd h (by simp)
  · simp only [Option.some.injEq, Prod.mk.injEq] at h
    obtain ⟨_, h2⟩ := h
    subst h2
    exact parse_entries_forall2 table entries hp

/-- The one-entry catalog of the C9 counterexample. -/
def mutTable : List DeckEntry :=
  [{ urlhash := "h1", savedate := "2024-05-01", price := 10 }]

/-- The same catalog as the call leaves it: the entry has gained the
`savedate_dt` key. -/
def mutTableAfter : List DeckEntry :=
  [{ urlhash := "h1", savedate := "2024-05-01", price := 10, savedate_dt := some 20240501 }]

/-- Counterexample to C9 as stated: after the call, the single entry of the
catalog is not equal to its pre-call value — it has gained a `savedate_dt`
field. -/
theorem filter_deck_hashes_mutates :
    (filter_deck_hashes mutTable 1 0 100).map Prod.snd = some mutTableAfter ∧
    (filter_deck_hashes mutTable 1 0 100).map Prod.snd ≠ some mutTable := by
  constructor
  · rfl
  · intro h
    have h2 : (some mutTableAfter : Option (List DeckEntry)) = some mutTable := by
      rw [← h]
      rfl
    simp [mutTable, mutTableAfter] at h2

/-- Witness for the amended C9 on the one-entry catalog. -/
theorem filter_deck_hashes_mutation_bounded_witness :
    filter_deck_hashes mutTable 1 0 100 = some (["h1"], mutTableAfter) ∧
    List.Forall₂ (fun e' e : DeckEntry => e'.urlhash = e.urlhash ∧ e'.savedate = e.savedate ∧
        e'.price = e.price ∧ e'.savedate_dt = strptimeYMD e.savedate)
      mutTableAfter mutTable :=
  ⟨rfl, filter_deck_hashes_mutation_bounded mutTable 1 0 100 ["h1"] mutTableAfter rfl⟩

/-! ### Claim C1

The bridge between the code's sort (a stable sort of the mutated entry dicts,
descending by the freshly written `savedate_dt` key) and the reference sort of
the spec (entries decorated with their original catalog position, ordered by
"later date first, ties by smaller position"). -/

/-- The in-place mutation performed by the parse loop, as a function of a
date-decorated entry. -/
def gmut (p : ℕ × DeckEntry) : DeckEntry := { p.2 with savedate_dt := some p.1 }

/-- Descending order on date-decorated entries. -/
def led (p q : ℕ × DeckEntry) : Prop := q.1 ≤ p.1

instance : DecidableRel led := fun p q => inferInstanceAs (Decidable (q.1 ≤ p.1))

theorem orderedInsert_map_gmut (p : ℕ × DeckEntry) (l : List (ℕ × DeckEntry)) :
    List.orderedInsert descLE (gmut p) (l.map gmut) = (List.orderedInsert led p l).map gmut := by
  induction l with
  | nil => rfl
  | cons q l ih =>
    simp only [List.map_cons, List.orderedInsert]
    by_cases h : led p q
    · rw [if_pos (show descLE (gmut p) (gmut q) from h), if_pos h, List.map_cons, List.map_cons]
    · rw [if_neg (show ¬ descLE (gmut p) (gmut q) from h), if_neg h, List.map_cons, ih]

theorem insertionSort_map_gmut (l : List (ℕ × DeckEntry)) :
    (l.map gmut).insertionSort descLE = (l.insertionSort led).map gmut := by
  induction l with
  | nil => rfl
  | cons p l ih =>
    simp only [List.map_cons, List.insertionSort]
    rw [ih, orderedInsert_map_gmut]

theorem orderedInsert_specLex_snd (i : ℕ) (p : ℕ × DeckEntry) :
    ∀ l : List (ℕ × (ℕ × DeckEntry)), (∀ q ∈ l, i < q.1) →
      (List.orderedInsert specLex (i, p) l).map Prod.snd =
        List.orderedInsert led p (l.map Prod.snd) := by
  intro l
  induction l with
  | nil => intro _; rfl
  | cons jq l ih =>
    intro hl
    obtain ⟨j, q⟩ := jq
    have hij : i < j := hl (j, q) (List.mem_cons_self _ _)
    have hiff : specLex (i, p) (j, q) ↔ led p q := by
      simp only [specLex, led]
      omega
    simp only [List.orderedInsert, List.map_cons]
    by_cases h : led p q
    · rw [if_pos (hiff.mpr h), if_pos h, List.map_cons, List.map_cons]
    · rw [if_neg (fun hc => h (hiff.mp hc)), if_neg h, List.map_cons,
          ih (fun q' hq' => hl q' (List.mem_cons_of_mem _ hq'))]

/-- Stability of the embedded sort: sorting position-decorated entries by the
spec's linear order and dropping the positions is the same as the stable sort
by date alone. -/
theorem insertionSort_enumFrom_snd (l : List (ℕ × DeckEntry)) :
    ∀ k : ℕ, ((l.enumFrom k).insertionSort specLex).map Prod.snd = l.insertionSort led := by
  induction l with
  | nil => intro k; rfl
  | cons p l ih =>
    intro k
    rw [List.enumFrom_cons]
    simp only [List.insertionSort]
    rw [orderedInsert_specLex_snd k p _ ?_, ih (k + 1)]
    intro q hq
    have hq' : q ∈ l.enumFrom (k + 1) := ((List.perm_insertionSort specLex _).mem_iff).mp hq
    obtain ⟨j, x⟩ := q
    have hj := (List.mem_enumFrom hq').1
    omega

/-- Parsing every entry succeeds together on the code path and on the spec
path, producing the same entries up to the `savedate_dt` mutation. -/
theorem parse_spec_dated :
    ∀ table : List DeckEntry, (∀ e ∈ table, (strptimeYMD e.savedate).isSome) →
      ∃ dated : List (ℕ × DeckEntry),
        spec_dated table = some dated ∧
        parse_entries table = some (dated.map gmut) ∧
        ∀ p ∈ dated, p.2 ∈ table ∧ strptimeYMD p.2.savedate = some p.1 := by
  intro table
  induction table with
  | nil => exact fun _ => ⟨[], rfl, rfl, by simp⟩
  | cons e es ih =>
    intro hp
    obtain ⟨d, hd⟩ := Option.isSome_iff_exists.mp (hp e (List.mem_cons_self e es))
    obtain ⟨dated, h1, h2, h3⟩ := ih (fun e' he' => hp e' (List.mem_cons_of_mem e he'))
    refine ⟨(d, e) :: dated, ?_, ?_, ?_⟩
    · simp [spec_dated, hd, h1]
    · simp [parse_entries, hd, h2]
      rfl
    · intro p hp'
      rcases List.mem_cons.mp hp' with h | h
      · subst h
        exact ⟨List.mem_cons_self _ _, hd⟩
      · obtain ⟨hmem, hparse⟩ := h3 p h
        exact ⟨List.mem_cons_of_mem _ hmem, hparse⟩

/-- The spec's worked example: three decks, one excluded by price, the other
two ordered most recent first. -/
def exampleTable : List DeckEntry :=
  [{ urlhash := "h1", savedate := "2024-05-01", price := 10 },
   { urlhash := "h2", savedate := "2024-06-01", price := 300 },
   { urlhash := "h3", savedate := "2024-06-15", price := 50 }]

/-- C1.  On every catalog whose entries all carry a parsable date,
`filter_deck_hashes` returns exactly what the spec's reference filter
(`spec_filter`: stable sort by parsed date descending with ties broken by
original catalog position, price window `[minPrice, maxPrice]` inclusive,
first `limit`, hashes in order) returns; in particular at most `limit`
hashes come back, each belonging to a catalog entry within the price window;
and the spec's worked example yields `[h3, h1]`. -/
theorem filter_deck_hashes_matches_spec :
    (∀ (table : List DeckEntry) (recent : ℕ) (lo hi : ℚ),
       (∀ e ∈ table, (strptimeYMD e.savedate).isSome) →
       ∃ (hashes : List String) (entries2 : List DeckEntry),
         filter_deck_hashes table recent lo hi = some (hashes, entries2) ∧
         spec_filter table recent lo hi = some hashes ∧
         hashes.length ≤ recent ∧
         (∀ hsh ∈ hashes, ∃ e, e ∈ table ∧ e.urlhash = hsh ∧ lo ≤ e.price ∧ e.price ≤ hi)) ∧
    (filter_deck_hashes exampleTable 2 0 100).map Prod.fst = some ["h3", "h1"] ∧
    spec_filter exampleTable 2 0 100 = some ["h3", "h1"] := by
  refine ⟨?_, by rfl, by rfl⟩
  intro table recent lo hi hp
  obtain ⟨dated, hs, hpe, hmem⟩ := parse_spec_dated table hp
  have hcode : filter_deck_hashes table recent lo hi =
      some (((((dated.map gmut).insertionSort descLE).filter (priceOk lo hi)).take recent).map
              (fun e => e.urlhash),
            dated.map gmut) := by
    unfold filter_deck_hashes
    rw [hpe]
  have hspec : spec_filter table recent lo hi =
      some ((((((dated.enum).insertionSort specLex).map (fun p => p.2.2)).filter
              (fun e => decide (lo ≤ e.price) && decide (e.price ≤ hi))).take recent).map
            (fun e => e.urlhash)) := by
    unfold spec_filter
    rw [hs]
  have hsort2 : ((dated.enum).insertionSort specLex).map Prod.snd = dated.insertionSort led :=
    insertionSort_enumFrom_snd dated 0
  have hspecSorted : ((dated.enum).insertionSort specLex).map (fun p => p.2.2) =
      (dated.insertionSort led).map Prod.snd := by
    rw [show (fun p : ℕ × ℕ × DeckEntry => p.2.2) =
          (Prod.snd ∘ Prod.snd : ℕ × ℕ × DeckEntry → DeckEntry) from rfl,
        ← List.map_map, hsort2]
  have hhash : ((((dated.map gmut).insertionSort descLE).filter (priceOk lo hi)).take recent).map
        (fun e => e.urlhash) =
      (((((dated.enum).insertionSort specLex).map (fun p => p.2.2)).filter
          (fun e => decide (lo ≤ e.price) && decide (e.price ≤ hi))).take recent).map
        (fun e => e.urlhash) := by
    rw [insertionSort_map_gmut, hspecSorted, List.filter_map, List.filter_map,
        show ((priceOk lo hi) ∘ gmut) =
          ((fun e => decide (lo ≤ e.price) && decide (e.price ≤ hi)) ∘
            (Prod.snd : ℕ × DeckEntry → DeckEntry)) from rfl,
        ← List.map_take, ← List.map_take, List.map_map, List.map_map]
    rfl
  refine ⟨_, _, hcode, ?_, ?_, ?_⟩
  · rw [hspec, ← hhash]
  · rw [List.length_map]
    exact le_of_eq_of_le (List.length_take _ _) (min_le_left _ _)
  · intro hsh hin
    obtain ⟨e', he', rfl⟩ := List.mem_map.mp hin
    have he'f := List.mem_of_mem_take he'
    obtain ⟨hemem, hprice⟩ := List.mem_filter.mp he'f
    rw [insertionSort_map_gmut] at hemem
    obtain ⟨p, hpS, rfl⟩ := List.mem_map.mp hemem
    have hpd : p ∈ dated := ((List.perm_insertionSort led dated).mem_iff).mp hpS
    obtain ⟨hptab, _⟩ := hmem p hpd
    simp only [priceOk, Bool.and_eq_true, decide_eq_true_iff] at hprice
    exact ⟨p.2, hptab, rfl, hprice.1, hprice.2⟩

/-- Witness for C1, at the spec's worked example. -/
theorem filter_deck_hashes_matches_spec_witness :
    (∀ e ∈ exampleTable, (strptimeYMD e.savedate).isSome) ∧
    (∃ (hashes : List String) (entries2 : List DeckEntry),
       filter_deck_hashes exampleTable 2 0 100 = some (hashes, entries2) ∧
       spec_filter exampleTable 2 0 100 = some hashes ∧
       hashes.length ≤ 2 ∧
       (∀ hsh ∈ hashes, ∃ e, e ∈ exampleTable ∧ e.urlhash = hsh ∧
          (0 : ℚ) ≤ e.price ∧ e.price ≤ 100)) :=
  ⟨by decide, filter_deck_hashes_matches_spec.1 exampleTable 2 0 100 (by decide)⟩

end EdhrecBackend
